import Mathlib

/-!
Verification of the study-session engine and audio pipeline of the
jec-tango vocabulary trainer.

The definitions below are a shallow embedding of the TypeScript source:

* `Flashcard`, `Deck` data model           — src/unnamed/part_000 (types)
* flip-card engine (`handleGrade`,
  `moveToNextAvailable`, `findNext`)       — src/unnamed/part_005 (StudySession)
* memory-match engine
  (`handleMemoryClick`, resolution)        — src/unnamed/part_005
* listening-quiz engine
  (`setupListeningTurn` options,
  `handleListeningAnswer`)                 — src/unnamed/part_005
* session statistics (`stats` progress)    — src/unnamed/part_005
* audio pipeline (`decodePCM`,
  `playTextToSpeech`, cache, fallback)     — src/services/audio.ts

Modelling conventions:
* JavaScript numbers holding mastery scores are embedded as `Int`
  (all arithmetic on them in the source is integer arithmetic);
  fractional results (progress percentages) are computed in `ℚ` with
  `Math.round x` embedded as `⌊x + 1/2⌋` (its exact semantics for the
  values arising here).
* UI-only state (drag coordinates, animation classes, streak counter,
  flip orientation) is omitted; it does not feed back into the card,
  tile or cache state machines.
* `Math.random()`-driven comparator shuffles are embedded as explicit
  reordering-function parameters; theorems that need them assume the
  function permutes its input.
* The single-threaded event model serialises operations: the animation
  lock (`animationClass`) and feedback lock reject grades while a
  transition is settling, so a session is a `List` of completed
  operations folded over the state.
-/

namespace JecTango

/-- Flashcard record, from the `Flashcard` interface (src/unnamed/part_000).
`masteryScore` is a JS number used as an integer. -/
structure Flashcard where
  id : String
  front : String
  back : String
  notes : Option String := none
  masteryScore : Int := 0
deriving DecidableEq, Repr

/-- `MAX_MASTERY = 5` (src/unnamed/part_005, line 22). -/
def MAX_MASTERY : Int := 5

/-! ## Flip-card (SessionScheduler) state machine, src/unnamed/part_005 -/

/-- The state of a flip-card session that feeds back into scheduling:
the working set `cards`, the cursor `currentIndex`, and the terminal
flag `showStats`. -/
structure FlipState where
  cards : List Flashcard
  currentIndex : Nat
  showStats : Bool
deriving DecidableEq, Repr

/-- JS `array.splice(i, 1)`: remove the element at index `i`. -/
def spliceOut (l : List α) (i : Nat) : List α := l.take i ++ l.drop (i + 1)

/-- JS `array.splice(i, 0, a)`: insert `a` at index `i`. -/
def spliceIn (l : List α) (i : Nat) (a : α) : List α := l.take i ++ a :: l.drop i

/-- The `findNext` scan inside `moveToNextAvailable`
(src/unnamed/part_005, lines 87-95): starting from `start`, scan the
indices `(start + i) % cards.length` for `i = 0, …, length - 1` and
return the first whose card has mastery below `MAX_MASTERY`;
`none` embeds the `-1` result. -/
def findNext (cards : List Flashcard) (start : Nat) : Option Nat :=
  (List.range cards.length).findSome? (fun i =>
    let checkIdx := (start + i) % cards.length
    match cards.get? checkIdx with
    | some c => if c.masteryScore < MAX_MASTERY then some checkIdx else none
    | none => none)

/-- `moveToNextAvailable` (src/unnamed/part_005, lines 80-111): choose
the scan start (re-test the current slot after an incorrect grade,
otherwise the next slot, wrapping past the end to 0), then either move
the cursor to the first unmastered card or end the session
(`setShowStats(true)`).  The 300 ms animation timeout only sequences
the update and is not part of the state. -/
def moveToNextAvailable (s : FlipState) (updatedCards : List Flashcard)
    (lastActionWasIncorrect : Bool) : FlipState :=
  let nextIdx0 := if lastActionWasIncorrect then s.currentIndex else s.currentIndex + 1
  let nextIdx := if updatedCards.length ≤ nextIdx0 then 0 else nextIdx0
  match findNext updatedCards nextIdx with
  | some j => { cards := updatedCards, currentIndex := j, showStats := s.showStats }
  | none => { cards := updatedCards, currentIndex := s.currentIndex, showStats := true }

/-- `handleGrade` (src/unnamed/part_005, lines 113-138).  When no
current card exists the handler returns without changes (the
`!currentCard` guard).  Otherwise the new mastery is `MAX_MASTERY` for
the forced "mastered" action and `min(MAX_MASTERY, max(0, m + Δ))`
otherwise; an incorrect grade (`Δ < 0`) requeues the card three slots
ahead via `splice`, any other grade updates it in place; finally the
scheduler advances. -/
def handleGrade (s : FlipState) (scoreChange : Int) (isMastered : Bool) : FlipState :=
  match s.cards.get? s.currentIndex with
  | none => s
  | some currentCard =>
    let newMastery := if isMastered then MAX_MASTERY
      else min MAX_MASTERY (max 0 (currentCard.masteryScore + scoreChange))
    let isIncorrect := decide (scoreChange < 0)
    let updatedCards :=
      if isIncorrect then
        let removed := spliceOut s.cards s.currentIndex
        let insertAt := min removed.length (s.currentIndex + 3)
        spliceIn removed insertAt { currentCard with masteryScore := newMastery }
      else
        s.cards.set s.currentIndex { currentCard with masteryScore := newMastery }
    moveToNextAvailable s updatedCards isIncorrect

/-- The three grading gestures the UI can produce
(src/unnamed/part_005, lines 180-186 and 511-533):
swipe/button incorrect = `handleGrade(-1)`, correct = `handleGrade(1)`,
forced mastered = `handleGrade(0, true)`. -/
inductive GradeOp where
  | incorrect
  | correct
  | mastered
deriving DecidableEq, Repr

/-- The `(scoreChange, isMastered)` argument pair of each gesture. -/
def GradeOp.args : GradeOp → Int × Bool
  | .incorrect => (-1, false)
  | .correct => (1, false)
  | .mastered => (0, true)

/-- One completed session event: the stats screen offers no grading
controls, so an event only applies `handleGrade` while the session has
not reached its terminal state. -/
def stepFlip (s : FlipState) (op : GradeOp) : FlipState :=
  if s.showStats then s else handleGrade s op.args.1 op.args.2

/-- A flip-card session: fold the completed grading events over the
state. -/
def runFlip (s : FlipState) (ops : List GradeOp) : FlipState :=
  ops.foldl stepFlip s

/-- Session start (src/unnamed/part_005, lines 57-61): the working set
is a shuffled copy of the deck with every mastery reset to 0; the
cursor starts at 0.  The shuffle is accounted for by quantifying over
the already-shuffled list. -/
def initFlip (shuffledDeck : List Flashcard) : FlipState :=
  { cards := shuffledDeck.map (fun c => { c with masteryScore := 0 })
    currentIndex := 0
    showStats := false }

/-! ## Memory-match (MatchEngine) state machine, src/unnamed/part_005 -/

/-- Tile side tag, the `type: 'front' | 'back'` field. -/
inductive TileSide where
  | front
  | back
deriving DecidableEq, Repr

/-- A memory tile (src/unnamed/part_005, line 46). -/
structure MemoryTile where
  id : String
  content : String
  type : TileSide
  isFlipped : Bool
  isMatched : Bool
deriving DecidableEq, Repr

/-- `MEMORY_PAIR_COUNT = 6` (src/unnamed/part_005, line 20). -/
def MEMORY_PAIR_COUNT : Nat := 6

/-- `MEMORY_PERFECT_CLICKS = 12` (src/unnamed/part_005, line 21). -/
def MEMORY_PERFECT_CLICKS : Nat := 12

/-- Memory-mode state that feeds back into click resolution. -/
structure MemoryState where
  memoryCards : List MemoryTile
  selectedIndices : List Nat
  memoryClickCount : Nat
  isTimerActive : Bool
  showStats : Bool
deriving DecidableEq, Repr

/-- `startMemoryGame` (src/unnamed/part_005, lines 198-209): sample
`MEMORY_PAIR_COUNT` cards from a shuffled copy of the deck, build a
front tile and a back tile per card, shuffle the tiles.  Both shuffles
are accounted for by parameters at the theorem level; `selectedCards`
is the already-shuffled-and-sliced sample and `shuffleTiles` the tile
shuffle. -/
def startMemoryGame (selectedCards : List Flashcard)
    (shuffleTiles : List MemoryTile → List MemoryTile) : MemoryState :=
  let pairs :=
    selectedCards.map (fun c =>
      { id := c.id, content := c.front, type := TileSide.front
        isFlipped := false, isMatched := false : MemoryTile }) ++
    selectedCards.map (fun c =>
      { id := c.id, content := c.back, type := TileSide.back
        isFlipped := false, isMatched := false : MemoryTile })
  { memoryCards := shuffleTiles pairs
    selectedIndices := []
    memoryClickCount := 0
    isTimerActive := false
    showStats := false }

/-- `handleMemoryClick` (src/unnamed/part_005, lines 211-247), the
synchronous part: while two tiles are selected, or when the clicked
tile is already face-up or already matched, the click is ignored;
otherwise the tile flips face-up, the click counter increments, the
timer starts and the index is appended to the selection.  Clicks
always come from rendered tiles, so `index` is in range; an
out-of-range index is embedded as a no-op. -/
def handleMemoryClick (s : MemoryState) (index : Nat) : MemoryState :=
  match s.memoryCards.get? index with
  | none => s
  | some tile =>
    if s.selectedIndices.length = 2 ∨ tile.isFlipped ∨ tile.isMatched then s
    else
      let newCards := s.memoryCards.set index { tile with isFlipped := true }
      { s with
        memoryCards := newCards
        selectedIndices := s.selectedIndices ++ [index]
        memoryClickCount := s.memoryClickCount + 1
        isTimerActive := true }

/-- The delayed resolution scheduled when a click completes a pair
(src/unnamed/part_005, lines 223-246): a match (same source id,
different side tags) marks both tiles matched and ends the session
when every tile is matched; a mismatch flips both tiles back.  Either
way the selection clears. -/
def resolveMemoryPair (s : MemoryState) : MemoryState :=
  match s.selectedIndices with
  | [first, second] =>
    match s.memoryCards.get? first, s.memoryCards.get? second with
    | some t1, some t2 =>
      if t1.id = t2.id ∧ t1.type ≠ t2.type then
        let matchedCards := (s.memoryCards.set first { t1 with isMatched := true }).set second
          { t2 with isMatched := true }
        { s with
          memoryCards := matchedCards
          selectedIndices := []
          isTimerActive := ¬(matchedCards.all (fun c => c.isMatched)) && s.isTimerActive
          showStats := s.showStats || matchedCards.all (fun c => c.isMatched) }
      else
        let resetCards := (s.memoryCards.set first { t1 with isFlipped := false }).set second
          { t2 with isFlipped := false }
        { s with memoryCards := resetCards, selectedIndices := [] }
    | _, _ => s
  | _ => s

/-! ## Listening-quiz (ListeningEngine) state machine, src/unnamed/part_005 -/

/-- Listening-mode state that feeds back into grading: the working
set, the cursor, the 4-option list, the feedback lock
(`some true` = correct, `some false` = wrong) and the terminal flag. -/
structure ListeningState where
  cards : List Flashcard
  currentIndex : Nat
  options : List String
  feedback : Option Bool
  showStats : Bool

/-- The option list built by `setupListeningTurn`
(src/unnamed/part_005, lines 254-261): all cards whose id differs from
the correct card's id are shuffled, the first three become
distractors, and the correct card's back text is shuffled in with
their back texts.  `shuffleCards`/`shuffleOptions` are the two
`Math.random()` comparator sorts. -/
def listeningOptionsFor (cards : List Flashcard) (correct : Flashcard)
    (shuffleCards : List Flashcard → List Flashcard)
    (shuffleOptions : List String → List String) : List String :=
  let others := (shuffleCards (cards.filter (fun c => decide ¬(c.id = correct.id)))).take 3
  shuffleOptions (correct.back :: others.map (fun o => o.back))

/-- `startListeningGame` (src/unnamed/part_005, lines 249-252) followed
by `setupListeningTurn(0)`: the mode is entered with no validation of
the deck size; the working set is the shuffled deck with mastery reset
to 0.  (With an empty deck the source throws on `cards[0]`; the claims
never exercise that state and it is embedded as an empty option
list.) -/
def startListeningGame (shuffledDeck : List Flashcard)
    (shuffleCards : List Flashcard → List Flashcard)
    (shuffleOptions : List String → List String) : ListeningState :=
  let cards := shuffledDeck.map (fun c => { c with masteryScore := 0 })
  { cards := cards
    currentIndex := 0
    options := match cards.get? 0 with
      | some correct => listeningOptionsFor cards correct shuffleCards shuffleOptions
      | none => []
    feedback := none
    showStats := false }

/-- The synchronous part of `handleListeningAnswer`
(src/unnamed/part_005, lines 263-275): while feedback is shown the
input is locked; otherwise the answer is compared by string equality
with the current card's back text, feedback is recorded, and the
card's mastery is set to `MAX_MASTERY` if correct and reset to 0 if
wrong.  (`currentIndex` is always in range while the mode runs; an
out-of-range cursor is embedded as a no-op.) -/
def handleListeningAnswer (s : ListeningState) (answer : String) : ListeningState :=
  if s.feedback.isSome then s
  else
    match s.cards.get? s.currentIndex with
    | none => s
    | some current =>
      let isCorrect := decide (answer = current.back)
      { s with
        cards := s.cards.set s.currentIndex
          { current with masteryScore := if isCorrect then MAX_MASTERY else 0 }
        feedback := some isCorrect }

/-- The delayed advance scheduled by `handleListeningAnswer`
(src/unnamed/part_005, lines 276-283): after the 1200 ms feedback
delay, either end the session (last card) or move the cursor forward
and set up the next turn (which clears the feedback lock). -/
def listeningAdvance (s : ListeningState)
    (shuffleCards : List Flashcard → List Flashcard)
    (shuffleOptions : List String → List String) : ListeningState :=
  if s.cards.length ≤ s.currentIndex + 1 then { s with showStats := true }
  else
    let next := s.currentIndex + 1
    match s.cards.get? next with
    | some correct =>
      { s with
        currentIndex := next
        options := listeningOptionsFor s.cards correct shuffleCards shuffleOptions
        feedback := none }
    | none => s

/-- One listening turn: the chosen answer together with the comparator
shuffles the next `setupListeningTurn` will draw. -/
structure ListeningOp where
  answer : String
  shuffleCards : List Flashcard → List Flashcard
  shuffleOptions : List String → List String

/-- One completed listening event: answers are rejected once the
session is over or while feedback is locked (the delayed advance of a
previous answer has always fired before the next answer is
accepted). -/
def stepListening (s : ListeningState) (op : ListeningOp) : ListeningState :=
  if s.showStats then s
  else if s.feedback.isSome then s
  else listeningAdvance (handleListeningAnswer s op.answer) op.shuffleCards op.shuffleOptions

/-- A listening session: fold the completed answers over the state. -/
def runListening (s : ListeningState) (ops : List ListeningOp) : ListeningState :=
  ops.foldl stepListening s

/-! ## Session statistics, src/unnamed/part_005 lines 286-305 -/

/-- `Math.round` on the (rational) values the stats code produces:
round half toward positive infinity. -/
def jsRound (q : ℚ) : ℤ := ⌊q + 1 / 2⌋

/-- `cards.reduce((sum, c) => sum + c.masteryScore, 0)`. -/
def masterySum (cards : List Flashcard) : Int :=
  (cards.map (fun c => c.masteryScore)).sum

/-- The flip-card / listening progress value of the `stats` memo
(src/unnamed/part_005, lines 286-293):
`round((currentMasterySum / totalPossibleMastery) * 100)` guarded by
`totalPossibleMastery > 0`. -/
def statsProgress (cards : List Flashcard) : ℤ :=
  let totalPossibleMastery : ℤ := (cards.length : ℤ) * MAX_MASTERY
  if 0 < totalPossibleMastery then
    jsRound (((masterySum cards : ℚ) / (totalPossibleMastery : ℚ)) * 100)
  else 0

/-- The memory-mode progress value (src/unnamed/part_005, lines
295-297): `min(100, round((MEMORY_PERFECT_CLICKS / clicks) * 100))`
guarded by `clicks > 0`. -/
def memoryProgress (memoryClickCount : Nat) : ℤ :=
  if 0 < memoryClickCount then
    min 100 (jsRound (((MEMORY_PERFECT_CLICKS : ℚ) / (memoryClickCount : ℚ)) * 100))
  else 0

/-- The rounded percentage `round(num / den)` written with natural
division, the form the specification states: `(2 * num + den) / (2 * den)`
equals `⌊num / den + 1 / 2⌋` for `den > 0`. -/
def natRound (num den : Nat) : Nat := (2 * num + den) / (2 * den)

/-! ## Audio pipeline, src/services/audio.ts -/

/-- PCM16 reinterpretation of two consecutive bytes (little-endian, as
`Int16Array` views the platform buffer): the unsigned combination
`lo + 256 * hi`, wrapped to a signed 16-bit value. -/
def int16OfBytes (lo hi : Fin 256) : ℤ :=
  if lo.val + 256 * hi.val < 32768 then (lo.val + 256 * hi.val : ℤ)
  else (lo.val + 256 * hi.val : ℤ) - 65536

/-- Consecutive byte pairs of the buffer; a trailing odd byte is
dropped, exactly as the `alignedLength = floor(byteLength / 2) * 2`
slice in `decodePCM` does. -/
def toPCMPairs : List (Fin 256) → List (Fin 256 × Fin 256)
  | lo :: hi :: rest => (lo, hi) :: toPCMPairs rest
  | _ => []

/-- `decodePCM` (src/services/audio.ts, lines 52-67): each aligned
16-bit sample normalised to `[-1, 1]` by division by 32768.  Line 60
calls `ctx.createBuffer(1, pcmData.length, sampleRate)`, which throws
`NotSupportedError` when the frame count is zero — reached by any
buffer of fewer than 2 bytes, in particular the empty array that
`decodeBase64` returns on malformed base64 — so the function is
fallible and `Except.error` embeds that throw.  The samples are dyadic
rationals with magnitude at most 1, all exactly representable as
floats, so `ℚ` models the float arithmetic exactly. -/
def decodePCM (data : List (Fin 256)) : Except Unit (List ℚ) :=
  if (toPCMPairs data).length = 0 then Except.error ()
  else Except.ok ((toPCMPairs data).map (fun p => (int16OfBytes p.1 p.2 : ℚ) / 32768))

/-- A decoded, playable audio buffer (the `AudioBuffer` contents). -/
def AudioBufferQ : Type := List ℚ
deriving DecidableEq

/-- The process-wide `audioCache` object: keys are the exact
synthesised texts.  Assignment prepends; lookup takes the most recent
binding, matching JS object-key overwrite semantics. -/
def AudioCache : Type := List (String × AudioBufferQ)
deriving DecidableEq

/-- `audioCache[text]` read. -/
def cacheLookup (cache : AudioCache) (text : String) : Option AudioBufferQ :=
  (cache.find? (fun e => decide (e.1 = text))).map (fun e => e.2)

/-- `audioCache[text] = buffer` write. -/
def cacheInsert (cache : AudioCache) (text : String) (buffer : AudioBufferQ) : AudioCache :=
  (text, buffer) :: cache

/-- The credential guard of `playTextToSpeech`
(src/services/audio.ts, lines 101-105):
`!apiKey || apiKey === 'undefined' || apiKey === ''` throws. -/
def validApiKey : Option String → Bool
  | none => false
  | some k => ¬(k = "undefined" ∨ k = "")

/-- The environment a single `playTextToSpeech` call runs against:
the build-time credential, the outcome of the remote synthesis request
(`Except.error` = the request threw; `.ok none` = success with no
inline audio payload; `.ok (some b64)` = payload), and the outcome of
decoding a given payload (`Except.error` = `decodeBase64`/`decodePCM`
threw). -/
structure TtsEnv where
  apiKey : Option String
  response : Except Unit (Option String)
  decodeResult : String → Except Unit AudioBufferQ

/-- Observable effects of one `playTextToSpeech` call, in order. -/
inductive TtsEvent where
  | playedCached
  | remoteRequest
  | decoded
  | playedFresh
  | fallback
deriving DecidableEq, Repr

/-- The `try` body of `playTextToSpeech` (src/services/audio.ts, lines
73-131): cache lookup, credential check, remote request, payload
check, decode, cache write, playback.  The result is the cache after
the call paired with the events so far; `Except.error` means the body
threw (at a point before any cache write, so the cache is returned
unchanged by the handler). -/
def ttsPrimary (env : TtsEnv) (text : String) (cache : AudioCache) :
    Except Unit AudioCache × List TtsEvent :=
  match cacheLookup cache text with
  | some _ => (Except.ok cache, [TtsEvent.playedCached])
  | none =>
    if validApiKey env.apiKey = false then (Except.error (), [])
    else
      match env.response with
      | Except.error _ => (Except.error (), [TtsEvent.remoteRequest])
      | Except.ok none => (Except.error (), [TtsEvent.remoteRequest])
      | Except.ok (some b64) =>
        match env.decodeResult b64 with
        | Except.error _ => (Except.error (), [TtsEvent.remoteRequest])
        | Except.ok buffer =>
          (Except.ok (cacheInsert cache text buffer),
           [TtsEvent.remoteRequest, TtsEvent.decoded, TtsEvent.playedFresh])

/-- Whether the primary path of a call fails (its body throws). -/
def ttsFailed (env : TtsEnv) (text : String) (cache : AudioCache) : Bool :=
  match (ttsPrimary env text cache).1 with
  | Except.ok _ => false
  | Except.error _ => true

/-- `playTextToSpeech` (src/services/audio.ts, lines 72-137): the body
wrapped in the `catch` handler, which absorbs every failure into one
`playNativeFallback(text)` call.  The function is total: no error
reaches the caller. -/
def playTextToSpeech (env : TtsEnv) (text : String) (cache : AudioCache) :
    AudioCache × List TtsEvent :=
  match ttsPrimary env text cache with
  | (Except.ok newCache, events) => (newCache, events)
  | (Except.error _, events) => (cache, events ++ [TtsEvent.fallback])

/-! ## Invariants of the flip-card engine -/

/-- Every mastery score stays in the closed interval `[0, MAX_MASTERY]`. -/
def MasteryInv (cards : List Flashcard) : Prop :=
  ∀ c ∈ cards, 0 ≤ c.masteryScore ∧ c.masteryScore ≤ MAX_MASTERY

/-- The cards currently at `MAX_MASTERY`. -/
def masteredCards (cards : List Flashcard) : List Flashcard :=
  cards.filter (fun c => decide (c.masteryScore = MAX_MASTERY))

/-- The total remaining mastery the working set still needs: the
termination measure of a flip session. -/
def masteryDeficit (cards : List Flashcard) : Nat :=
  (cards.map (fun c => (MAX_MASTERY - c.masteryScore).toNat)).sum

/-- The inductive invariant of a flip-card session: scores in range, a
live session either has no cards or a current card strictly below
`MAX_MASTERY`, and a finished session has every card mastered. -/
structure FlipInv (s : FlipState) : Prop where
  mastery : MasteryInv s.cards
  current : s.showStats = false →
    s.cards = [] ∨ ∃ c, s.cards.get? s.currentIndex = some c ∧ c.masteryScore < MAX_MASTERY
  stats : s.showStats = true → ∀ c ∈ s.cards, c.masteryScore = MAX_MASTERY

/-! ## List helper lemmas for the splice-based requeue -/

theorem mem_spliceOut {l : List α} {i : Nat} {x : α} (h : x ∈ spliceOut l i) : x ∈ l := by
  rcases List.mem_append.mp h with h' | h'
  · exact List.mem_of_mem_take h'
  · exact List.mem_of_mem_drop h'

theorem mem_spliceIn {l : List α} {i : Nat} {a x : α} (h : x ∈ spliceIn l i a) :
    x ∈ l ∨ x = a := by
  rcases List.mem_append.mp h with h' | h'
  · exact Or.inl (List.mem_of_mem_take h')
  · rcases List.mem_cons.mp h' with h'' | h''
    · exact Or.inr h''
    · exact Or.inl (List.mem_of_mem_drop h'')

theorem length_spliceOut {l : List α} {i : Nat} (h : i < l.length) :
    (spliceOut l i).length = l.length - 1 := by
  simp only [spliceOut, List.length_append, List.length_take, List.length_drop]
  omega

theorem length_spliceIn {l : List α} {i : Nat} (h : i ≤ l.length) (a : α) :
    (spliceIn l i a).length = l.length + 1 := by
  simp only [spliceIn, List.length_append, List.length_take, List.length_cons,
    List.length_drop]
  omega

theorem eq_take_cons_drop : ∀ {l : List α} {i : Nat} {c : α}, l.get? i = some c →
    l = l.take i ++ c :: l.drop (i + 1)
  | [], i, c, h => by simp at h
  | x :: t, 0, c, h => by
    simp only [List.get?] at h
    injection h with h
    simp [h]
  | x :: t, i + 1, c, h => by
    simp only [List.get?] at h
    have := eq_take_cons_drop (l := t) (i := i) (c := c) h
    simp only [List.take_succ_cons, List.drop_succ_cons, List.cons_append]
    exact congrArg (x :: ·) this

theorem filter_spliceIn (p : α → Bool) {a : α} (hpa : p a = false) (l : List α) (i : Nat) :
    (spliceIn l i a).filter p = l.filter p := by
  simp only [spliceIn, List.filter_append, List.filter_cons, hpa, Bool.false_eq_true,
    if_false]
  rw [← List.filter_append, List.take_append_drop]

theorem filter_spliceOut (p : α → Bool) {l : List α} {i : Nat} {c : α}
    (h : l.get? i = some c) (hpc : p c = false) :
    (spliceOut l i).filter p = l.filter p := by
  conv_rhs => rw [eq_take_cons_drop h]
  simp only [spliceOut, List.filter_append, List.filter_cons, hpc, Bool.false_eq_true,
    if_false]

theorem filter_subperm_set (p : α → Bool) : ∀ {l : List α} {i : Nat} {c : α} (c' : α),
    l.get? i = some c → p c = false → List.Subperm (l.filter p) ((l.set i c').filter p)
  | [], i, c, c', h, hpc => by simp at h
  | x :: t, 0, c, c', h, hpc => by
    simp only [List.get?] at h
    injection h with h
    subst h
    simp only [List.set_cons_zero, List.filter_cons, hpc, Bool.false_eq_true, if_false]
    cases hpc' : p c'
    · simp [List.Subperm.refl]
    · simpa using (List.sublist_cons_self c' (t.filter p)).subperm
  | x :: t, i + 1, c, c', h, hpc => by
    simp only [List.get?] at h
    have ih := filter_subperm_set p (l := t) (i := i) (c := c) c' h hpc
    simp only [List.set_cons_succ, List.filter_cons]
    cases p x
    · simpa using ih
    · simpa using (List.subperm_cons x).mpr ih

/-! ## Properties of the `findNext` scan -/

theorem findNext_some {cards : List Flashcard} {start j : Nat}
    (h : findNext cards start = some j) :
    ∃ c, cards.get? j = some c ∧ c.masteryScore < MAX_MASTERY := by
  obtain ⟨i, _, hfi⟩ := List.exists_of_findSome?_eq_some h
  dsimp only at hfi
  rcases hg : cards.get? ((start + i) % cards.length) with _ | c
  · rw [hg] at hfi
    simp at hfi
  · rw [hg] at hfi
    dsimp only at hfi
    by_cases hm : c.masteryScore < MAX_MASTERY
    · rw [if_pos hm] at hfi
      injection hfi with hfi
      exact hfi ▸ ⟨c, hg, hm⟩
    · rw [if_neg hm] at hfi
      simp at hfi

/-- The index the scan uses to reach position `k` of the working set:
`i = (k + L - start % L) % L` satisfies `(start + i) % L = k`. -/
theorem mod_scan_hits {L start k : Nat} (hk : k < L) :
    (start + (k + L - start % L) % L) % L = k := by
  have hL : 0 < L := Nat.lt_of_le_of_lt (Nat.zero_le k) hk
  have hs : start % L < L := Nat.mod_lt _ hL
  calc (start + (k + L - start % L) % L) % L
      = (start + (k + L - start % L)) % L := by rw [Nat.add_mod_mod]
    _ = (start % L + (k + L - start % L)) % L := by rw [Nat.mod_add_mod]
    _ = (k + L) % L := by congr 1; omega
    _ = k := by rw [Nat.add_mod_right]; exact Nat.mod_eq_of_lt hk

theorem findNext_eq_none {cards : List Flashcard} {start : Nat}
    (h : findNext cards start = none) :
    ∀ c ∈ cards, MAX_MASTERY ≤ c.masteryScore := by
  intro c hc
  obtain ⟨k, hk⟩ := List.mem_iff_get?.mp hc
  have hklen : k < cards.length := by
    rcases List.get?_eq_some.mp hk with ⟨hlt, _⟩
    exact hlt
  rw [findNext, List.findSome?_eq_none_iff] at h
  have hi : (k + cards.length - start % cards.length) % cards.length ∈
      List.range cards.length := by
    refine List.mem_range.mpr (Nat.mod_lt _ ?_)
    exact Nat.lt_of_le_of_lt (Nat.zero_le k) hklen
  have := h _ hi
  dsimp only at this
  rw [mod_scan_hits hklen, hk] at this
  dsimp only at this
  by_contra hlt
  rw [if_pos (lt_of_not_le hlt)] at this
  simp at this

theorem findNext_eq_none_of_all {cards : List Flashcard} {start : Nat}
    (h : ∀ c ∈ cards, MAX_MASTERY ≤ c.masteryScore) :
    findNext cards start = none := by
  rw [findNext, List.findSome?_eq_none_iff]
  intro i _
  dsimp only
  rcases hg : cards.get? ((start + i) % cards.length) with _ | c
  · rfl
  · dsimp only
    have hc : c ∈ cards := List.get?_mem hg
    rw [if_neg (not_lt.mpr (h c hc))]

/-! ## Preservation of the flip-card invariants -/

theorem moveToNextAvailable_eq (s : FlipState) (u : List Flashcard) (b : Bool) :
    moveToNextAvailable s u b =
      match findNext u (if u.length ≤ (if b then s.currentIndex else s.currentIndex + 1)
          then 0 else if b then s.currentIndex else s.currentIndex + 1) with
      | some j => { cards := u, currentIndex := j, showStats := s.showStats }
      | none => { cards := u, currentIndex := s.currentIndex, showStats := true } := rfl

theorem moveToNextAvailable_cards (s : FlipState) (u : List Flashcard) (b : Bool) :
    (moveToNextAvailable s u b).cards = u := by
  rw [moveToNextAvailable_eq]
  split <;> rfl

theorem newMastery_bounds (m Δ : Int) (b : Bool) :
    0 ≤ (if b then MAX_MASTERY else min MAX_MASTERY (max 0 (m + Δ))) ∧
      (if b then MAX_MASTERY else min MAX_MASTERY (max 0 (m + Δ))) ≤ MAX_MASTERY := by
  cases b
  · simp only [if_false, Bool.false_eq_true]
    rw [MAX_MASTERY, min_def, max_def]
    split <;> split <;> omega
  · simp [MAX_MASTERY]

theorem masteryInv_set {cards : List Flashcard} {i : Nat} {c : Flashcard}
    (hinv : MasteryInv cards) (m' : Int) (hm : 0 ≤ m' ∧ m' ≤ MAX_MASTERY) :
    MasteryInv (cards.set i { c with masteryScore := m' }) := by
  intro x hx
  rcases List.mem_or_eq_of_mem_set hx with hx' | hx'
  · exact hinv x hx'
  · rw [hx']
    exact hm

theorem masteryInv_requeue {cards : List Flashcard} {i j : Nat} {c : Flashcard}
    (hinv : MasteryInv cards) (m' : Int) (hm : 0 ≤ m' ∧ m' ≤ MAX_MASTERY) :
    MasteryInv (spliceIn (spliceOut cards i) j { c with masteryScore := m' }) := by
  intro x hx
  rcases mem_spliceIn hx with hx' | hx'
  · exact hinv x (mem_spliceOut hx')
  · rw [hx']
    exact hm

theorem flipInv_moveToNextAvailable {s : FlipState} {u : List Flashcard} {b : Bool}
    (hs : s.showStats = false) (hu : MasteryInv u) :
    FlipInv (moveToNextAvailable s u b) := by
  rw [moveToNextAvailable_eq]
  rcases hf : findNext u (if u.length ≤ (if b then s.currentIndex else s.currentIndex + 1)
      then 0 else if b then s.currentIndex else s.currentIndex + 1) with _ | j
  · exact
      { mastery := hu
        current := fun hc => absurd hc (by simp)
        stats := fun _ => fun c hc =>
          le_antisymm (hu c hc).2 (findNext_eq_none hf c hc) }
  · exact
      { mastery := hu
        current := fun _ => Or.inr (findNext_some hf)
        stats := fun hc => absurd (hs ▸ hc) (by simp) }

theorem stepFlip_inv (op : GradeOp) {s : FlipState} (h : FlipInv s) :
    FlipInv (stepFlip s op) := by
  rw [stepFlip]
  rcases hss : s.showStats with _ | _
  · rw [if_neg Bool.false_ne_true]
    rw [handleGrade]
    rcases hg : s.cards.get? s.currentIndex with _ | c
    · exact h
    · dsimp only
      apply flipInv_moveToNextAvailable hss
      rcases hneg : decide ((GradeOp.args op).1 < 0) with _ | _
      · rw [if_neg Bool.false_ne_true]
        exact masteryInv_set h.mastery _
          (newMastery_bounds c.masteryScore (GradeOp.args op).1 (GradeOp.args op).2)
      · rw [if_pos rfl]
        exact masteryInv_requeue h.mastery _
          (newMastery_bounds c.masteryScore (GradeOp.args op).1 (GradeOp.args op).2)
  · rw [if_pos rfl]
    exact h

theorem stepFlip_length (op : GradeOp) (s : FlipState) :
    (stepFlip s op).cards.length = s.cards.length := by
  rw [stepFlip]
  rcases hss : s.showStats with _ | _
  · rw [if_neg Bool.false_ne_true]
    rw [handleGrade]
    rcases hg : s.cards.get? s.currentIndex with _ | c
    · rfl
    · dsimp only
      rw [moveToNextAvailable_cards]
      have hi : s.currentIndex < s.cards.length := by
        rcases List.get?_eq_some.mp hg with ⟨hlt, _⟩
        exact hlt
      rcases hneg : decide ((GradeOp.args op).1 < 0) with _ | _
      · rw [if_neg Bool.false_ne_true, List.length_set]
      · rw [if_pos rfl]
        rw [length_spliceIn (min_le_left _ _), length_spliceOut hi]
        omega
  · rw [if_pos rfl]

theorem stepFlip_masteredCards (op : GradeOp) {s : FlipState} (h : FlipInv s) :
    List.Subperm (masteredCards s.cards) (masteredCards (stepFlip s op).cards) := by
  rw [stepFlip]
  rcases hss : s.showStats with _ | _
  · rw [if_neg Bool.false_ne_true]
    rw [handleGrade]
    rcases hg : s.cards.get? s.currentIndex with _ | c
    · exact List.Subperm.refl _
    · dsimp only
      rw [moveToNextAvailable_cards]
      have hcur : c.masteryScore < MAX_MASTERY := by
        rcases h.current hss with hnil | ⟨c', hg', hc'⟩
        · rw [hnil] at hg
          simp at hg
        · rw [hg'] at hg
          injection hg with hg
          exact hg ▸ hc'
      have hpc : (fun x => decide (x.masteryScore = MAX_MASTERY)) c = false := by
        simp only [decide_eq_false_iff_not]
        exact ne_of_lt hcur
      rcases hneg : decide ((GradeOp.args op).1 < 0) with _ | _
      · rw [if_neg Bool.false_ne_true]
        exact filter_subperm_set (fun x : Flashcard => decide (x.masteryScore = MAX_MASTERY)) _ hg hpc
      · rw [if_pos rfl]
        have hm : c.masteryScore ≤ MAX_MASTERY := (h.mastery c (List.get?_mem hg)).2
        have hnew : (if (GradeOp.args op).2 then MAX_MASTERY
            else min MAX_MASTERY (max 0 (c.masteryScore + (GradeOp.args op).1))) <
            MAX_MASTERY := by
          have hneg' : (GradeOp.args op).1 < 0 := of_decide_eq_true hneg
          have hb2 : (GradeOp.args op).2 = false := by
            rcases op <;> simp_all [GradeOp.args]
          rw [hb2]
          simp only [Bool.false_eq_true, if_false]
          rw [MAX_MASTERY, min_def, max_def] at *
          split <;> split <;> omega
        have hpnew : (fun x => decide (x.masteryScore = MAX_MASTERY))
            { c with masteryScore := (if (GradeOp.args op).2 then MAX_MASTERY
              else min MAX_MASTERY (max 0 (c.masteryScore + (GradeOp.args op).1))) } =
            false := by
          simp only [decide_eq_false_iff_not]
          exact ne_of_lt hnew
        rw [masteredCards, masteredCards,
          filter_spliceIn (fun x : Flashcard => decide (x.masteryScore = MAX_MASTERY)) hpnew,
          filter_spliceOut (fun x : Flashcard => decide (x.masteryScore = MAX_MASTERY)) hg hpc]
  · rw [if_pos rfl]

theorem flipInv_init (deck : List Flashcard) : FlipInv (initFlip deck) := by
  refine
    { mastery := ?_
      current := ?_
      stats := fun hc => absurd hc (by simp [initFlip]) }
  · intro c hc
    rcases List.mem_map.mp hc with ⟨c0, _, hco⟩
    rw [← hco]
    simp [MAX_MASTERY]
  · intro _
    rcases deck with _ | ⟨d, t⟩
    · exact Or.inl rfl
    · exact Or.inr ⟨{ d with masteryScore := 0 }, rfl, by simp [MAX_MASTERY]⟩

theorem runFlip_inv (ops : List GradeOp) {s : FlipState} (h : FlipInv s) :
    FlipInv (runFlip s ops) := by
  induction ops generalizing s with
  | nil => exact h
  | cons op rest ih => exact ih (stepFlip_inv op h)

theorem runFlip_length (ops : List GradeOp) (s : FlipState) :
    (runFlip s ops).cards.length = s.cards.length := by
  induction ops generalizing s with
  | nil => rfl
  | cons op rest ih => rw [runFlip, List.foldl_cons, ← runFlip, ih, stepFlip_length]

theorem runFlip_masteredCards (ops : List GradeOp) {s : FlipState} (h : FlipInv s) :
    List.Subperm (masteredCards s.cards) (masteredCards (runFlip s ops).cards) := by
  induction ops generalizing s with
  | nil => exact List.Subperm.refl _
  | cons op rest ih =>
    exact List.Subperm.trans (stepFlip_masteredCards op h) (ih (stepFlip_inv op h))

theorem runFlip_fix {s : FlipState} (h : s.showStats = true) (ops : List GradeOp) :
    runFlip s ops = s := by
  induction ops with
  | nil => rfl
  | cons op rest ih =>
    rw [runFlip, List.foldl_cons, stepFlip, h, if_pos rfl]
    exact ih

/-! ## The termination measure of a flip session -/

theorem sum_set_nat : ∀ (l : List ℕ) (i : Nat) (x y : ℕ), l.get? i = some x →
    ((l.set i y).sum + x = l.sum + y)
  | [], i, x, y, h => by simp at h
  | a :: t, 0, x, y, h => by
    simp only [List.get?] at h
    injection h with h
    subst h
    simp only [List.set_cons_zero, List.sum_cons]
    omega
  | a :: t, i + 1, x, y, h => by
    simp only [List.get?] at h
    have ih := sum_set_nat t i x y h
    simp only [List.set_cons_succ, List.sum_cons]
    omega

theorem masteryDeficit_pos {cards : List Flashcard} {i : Nat} {c : Flashcard}
    (hg : cards.get? i = some c) (hc : c.masteryScore < MAX_MASTERY) :
    1 ≤ masteryDeficit cards := by
  have hmem : (MAX_MASTERY - c.masteryScore).toNat ∈
      cards.map (fun c => (MAX_MASTERY - c.masteryScore).toNat) :=
    List.mem_map_of_mem _ (List.get?_mem hg)
  have h1 : 1 ≤ (MAX_MASTERY - c.masteryScore).toNat := by omega
  exact le_trans h1 (List.le_sum_of_mem hmem)

theorem newMastery_progress (m : Int) (h0 : 0 ≤ m) (h5 : m < MAX_MASTERY)
    (op : GradeOp) (hop : op ≠ GradeOp.incorrect) :
    m + 1 ≤ (if (GradeOp.args op).2 then MAX_MASTERY
        else min MAX_MASTERY (max 0 (m + (GradeOp.args op).1))) ∧
      (if (GradeOp.args op).2 then MAX_MASTERY
        else min MAX_MASTERY (max 0 (m + (GradeOp.args op).1))) ≤ MAX_MASTERY := by
  rcases op
  · exact absurd rfl hop
  · simp only [GradeOp.args, Bool.false_eq_true, if_false]
    rw [MAX_MASTERY] at *
    rw [min_def, max_def]
    split <;> split <;> omega
  · simp only [GradeOp.args, if_true]
    rw [MAX_MASTERY] at *
    omega

theorem stepFlip_deficit_lt {op : GradeOp} (hop : op ≠ GradeOp.incorrect) {s : FlipState}
    (h : FlipInv s) (hss : s.showStats = false) (hne : s.cards ≠ []) :
    masteryDeficit (stepFlip s op).cards + 1 ≤ masteryDeficit s.cards := by
  rw [stepFlip, hss, if_neg Bool.false_ne_true, handleGrade]
  rcases h.current hss with hnil | ⟨c, hg, hc⟩
  · exact absurd hnil hne
  · rw [hg]
    dsimp only
    have hneg : decide ((GradeOp.args op).1 < 0) = false := by
      rcases op
      · exact absurd rfl hop
      · rfl
      · rfl
    rw [hneg, if_neg Bool.false_ne_true, moveToNextAvailable_cards]
    have h0 : 0 ≤ c.masteryScore := (h.mastery c (List.get?_mem hg)).1
    have hprog := newMastery_progress c.masteryScore h0 hc op hop
    rw [masteryDeficit, masteryDeficit, List.map_set]
    dsimp only
    have hgm : (s.cards.map (fun c => (MAX_MASTERY - c.masteryScore).toNat)).get?
        s.currentIndex = some ((MAX_MASTERY - c.masteryScore).toNat) := by
      rw [List.get?_map, hg]
      rfl
    have hsum := sum_set_nat (s.cards.map (fun c => (MAX_MASTERY - c.masteryScore).toNat))
      s.currentIndex ((MAX_MASTERY - c.masteryScore).toNat)
      ((MAX_MASTERY - (if (GradeOp.args op).2 then MAX_MASTERY
        else min MAX_MASTERY (max 0 (c.masteryScore + (GradeOp.args op).1)))).toNat) hgm
    rw [MAX_MASTERY] at *
    omega

theorem masteryDeficit_init (deck : List Flashcard) :
    masteryDeficit (initFlip deck).cards = deck.length * 5 := by
  rw [initFlip, masteryDeficit]
  dsimp only
  rw [List.map_map]
  have hconst : ((fun c : Flashcard => (MAX_MASTERY - c.masteryScore).toNat) ∘
      (fun c : Flashcard => { c with masteryScore := 0 })) = fun _ => 5 := rfl
  rw [hconst]
  induction deck with
  | nil => rfl
  | cons d t ih =>
    simp only [List.map_cons, List.sum_cons, List.length_cons, ih]
    omega

theorem runFlip_terminates : ∀ (ops : List GradeOp),
    (∀ op ∈ ops, op ≠ GradeOp.incorrect) →
    ∀ s : FlipState, FlipInv s → s.cards ≠ [] →
    masteryDeficit s.cards ≤ ops.length → (runFlip s ops).showStats = true := by
  intro ops
  induction ops with
  | nil =>
    intro _ s hinv hne hd
    by_contra hss
    have hss' : s.showStats = false := by
      rcases hb : s.showStats with _ | _
      · rfl
      · exact absurd (by rw [runFlip] at *; simpa using hb) hss
    rcases hinv.current hss' with hnil | ⟨c, hg, hc⟩
    · exact hne hnil
    · have hpos := masteryDeficit_pos hg hc
      simp only [List.length_nil] at hd
      omega
  | cons op rest ih =>
    intro hpos s hinv hne hd
    rw [runFlip, List.foldl_cons, ← runFlip]
    rcases hss : s.showStats with _ | _
    · have hop : op ≠ GradeOp.incorrect := hpos op (List.mem_cons_self op rest)
      have hdec := stepFlip_deficit_lt hop hinv hss hne
      have hne' : (stepFlip s op).cards ≠ [] := by
        intro hnil
        apply hne
        have hl := stepFlip_length op s
        rw [hnil] at hl
        exact List.eq_nil_of_length_eq_zero hl.symm
      refine ih (fun o ho => hpos o (List.mem_cons_of_mem _ ho)) _
        (stepFlip_inv op hinv) hne' ?_
      simp only [List.length_cons] at hd
      omega
    · rw [stepFlip, hss, if_pos rfl, runFlip_fix hss]
      exact hss

/-! ## Mastery preservation in listening mode -/

theorem listeningAdvance_cards (s : ListeningState)
    (shC : List Flashcard → List Flashcard) (shS : List String → List String) :
    (listeningAdvance s shC shS).cards = s.cards := by
  rw [listeningAdvance]
  split
  · rfl
  · dsimp only
    split <;> rfl

theorem handleListeningAnswer_mastery {s : ListeningState} (a : String)
    (h : MasteryInv s.cards) : MasteryInv (handleListeningAnswer s a).cards := by
  rw [handleListeningAnswer]
  split
  · exact h
  · rcases hg : s.cards.get? s.currentIndex with _ | current
    · exact h
    · dsimp only
      refine masteryInv_set h _ ?_
      rcases decide (a = current.back) with _ | _
      · simp [MAX_MASTERY]
      · simp [MAX_MASTERY]

theorem stepListening_mastery {s : ListeningState} (op : ListeningOp)
    (h : MasteryInv s.cards) : MasteryInv (stepListening s op).cards := by
  rw [stepListening]
  split
  · exact h
  · split
    · exact h
    · rw [listeningAdvance_cards]
      exact handleListeningAnswer_mastery op.answer h

theorem runListening_mastery (ops : List ListeningOp) {s : ListeningState}
    (h : MasteryInv s.cards) : MasteryInv (runListening s ops).cards := by
  induction ops generalizing s with
  | nil => exact h
  | cons op rest ih => exact ih (stepListening_mastery op h)

theorem masteryInv_reset (deck : List Flashcard) :
    MasteryInv (deck.map (fun c => { c with masteryScore := 0 })) := by
  intro c hc
  rcases List.mem_map.mp hc with ⟨c0, _, hco⟩
  rw [← hco]
  simp [MAX_MASTERY]

theorem runFlip_cards_ne_nil {deck : List Flashcard} (hne : deck ≠ [])
    (ops : List GradeOp) : (runFlip (initFlip deck) ops).cards ≠ [] := by
  intro hnil
  have hl := runFlip_length ops (initFlip deck)
  rw [hnil] at hl
  simp only [List.length_nil, initFlip, List.length_map] at hl
  exact hne (List.eq_nil_of_length_eq_zero hl.symm)

/-! ## Sample data used in witnesses and counterexamples -/

/-- Sample card. -/
def cardA : Flashcard := { id := "a", front := "apple", back := "ringo" }

/-- Sample card. -/
def cardB : Flashcard := { id := "b", front := "book", back := "hon" }

/-- Sample card. -/
def cardC : Flashcard := { id := "c", front := "cat", back := "neko" }

/-- Sample card. -/
def cardD : Flashcard := { id := "d", front := "dog", back := "inu" }

/-- Sample card sharing `cardA`'s back text under a different id. -/
def cardA2 : Flashcard := { id := "a2", front := "apple pie", back := "ringo" }

/-! ## Claim theorems -/

/-- Claim C1: for every deck and every sequence of grading operations
(swipe/button grades with delta −1 or +1, the forced "mastered"
action, and listening-mode answer grading), every card's masteryScore
remains in the closed interval `[0, MAX_MASTERY]` at every point
during the session — every point of a session is reached by some
prefix of the event sequence, and both quantifications range over all
such sequences. -/
theorem c1_mastery_in_range (deck : List Flashcard) (flipOps : List GradeOp)
    (listenOps : List ListeningOp)
    (shC : List Flashcard → List Flashcard) (shS : List String → List String) :
    MasteryInv (runFlip (initFlip deck) flipOps).cards ∧
    MasteryInv (runListening (startListeningGame deck shC shS) listenOps).cards := by
  constructor
  · exact (runFlip_inv flipOps (flipInv_init deck)).mastery
  · exact runListening_mastery listenOps (masteryInv_reset deck)

/-- Claim C2: in flip-card mode, after every sequence of grading
operations on a nonempty deck, (i) while the session is live the
selected current card exists and has masteryScore strictly below
`MAX_MASTERY`; (ii) while any card is below `MAX_MASTERY` the session
stays live, so unmastered cards remain eligible for re-selection; and
(iii) the multiset of mastered cards never shrinks as the session
continues — combined with (i), a card that reached `MAX_MASTERY` is
never shown again. -/
theorem c2_selection_below_max (deck : List Flashcard) (ops more : List GradeOp)
    (hne : deck ≠ []) :
    ((runFlip (initFlip deck) ops).showStats = false →
      ∃ c, (runFlip (initFlip deck) ops).cards.get?
          (runFlip (initFlip deck) ops).currentIndex = some c ∧
        c.masteryScore < MAX_MASTERY) ∧
    ((∃ c ∈ (runFlip (initFlip deck) ops).cards, c.masteryScore < MAX_MASTERY) →
      (runFlip (initFlip deck) ops).showStats = false) ∧
    List.Subperm (masteredCards (runFlip (initFlip deck) ops).cards)
      (masteredCards (runFlip (initFlip deck) (ops ++ more)).cards) := by
  have hinv := runFlip_inv ops (flipInv_init deck)
  refine ⟨?_, ?_, ?_⟩
  · intro hss
    rcases hinv.current hss with hnil | hex
    · exact absurd hnil (runFlip_cards_ne_nil hne ops)
    · exact hex
  · intro hex
    rcases hex with ⟨c, hc, hlt⟩
    rcases hb : (runFlip (initFlip deck) ops).showStats with _ | _
    · rfl
    · exact absurd (hinv.stats hb c hc) (ne_of_lt hlt)
  · have hEq : runFlip (initFlip deck) (ops ++ more) =
        runFlip (runFlip (initFlip deck) ops) more := by
      simp only [runFlip, List.foldl_append]
    rw [hEq]
    exact runFlip_masteredCards more hinv

/-- Witness for `c2_selection_below_max` at the one-card deck
`[cardA]` with no grading operations. -/
theorem c2_selection_below_max_witness :
    ([cardA] ≠ ([] : List Flashcard)) ∧
    (((runFlip (initFlip [cardA]) []).showStats = false →
      ∃ c, (runFlip (initFlip [cardA]) []).cards.get?
          (runFlip (initFlip [cardA]) []).currentIndex = some c ∧
        c.masteryScore < MAX_MASTERY) ∧
    ((∃ c ∈ (runFlip (initFlip [cardA]) []).cards, c.masteryScore < MAX_MASTERY) →
      (runFlip (initFlip [cardA]) []).showStats = false) ∧
    List.Subperm (masteredCards (runFlip (initFlip [cardA]) []).cards)
      (masteredCards (runFlip (initFlip [cardA]) ([] ++ [GradeOp.correct])).cards)) :=
  ⟨by decide, c2_selection_below_max [cardA] [] [GradeOp.correct] (by decide)⟩

/-- Claim C3 counterexample: with a single-card deck
(`n × MAX_MASTERY = 5`), the grading sequence
`[incorrect, correct, correct, correct, correct]` has length
`n × MAX_MASTERY` yet the session has not terminated, and the session
only terminates after a sixth grading operation — refuting "terminates
after at most n × MAX_MASTERY grading operations" for unrestricted
grading sequences. -/
theorem c3_counterexample :
    [cardA].length * MAX_MASTERY.toNat = 5 ∧
    (runFlip (initFlip [cardA])
      [GradeOp.incorrect, GradeOp.correct, GradeOp.correct, GradeOp.correct,
        GradeOp.correct]).showStats = false ∧
    (runFlip (initFlip [cardA])
      [GradeOp.incorrect, GradeOp.correct, GradeOp.correct, GradeOp.correct,
        GradeOp.correct, GradeOp.correct]).showStats = true := by
  decide

/-- Claim C3 (amended): for a nonempty deck, (i) a flip-card session
is in its terminal (stats) state iff every card of the working set has
masteryScore equal to `MAX_MASTERY`; and (ii) every session whose
grading operations are all correct (+1) or forced-mastered — the worst
case among sessions without incorrect grades — terminates within
`deck.length × MAX_MASTERY` grading operations.  The unrestricted
bound of the original claim fails, see the counterexample. -/
theorem c3_termination (deck : List Flashcard) (ops : List GradeOp) (hne : deck ≠ []) :
    ((runFlip (initFlip deck) ops).showStats = true ↔
      ∀ c ∈ (runFlip (initFlip deck) ops).cards, c.masteryScore = MAX_MASTERY) ∧
    ((∀ op ∈ ops, op ≠ GradeOp.incorrect) →
      deck.length * MAX_MASTERY.toNat ≤ ops.length →
      (runFlip (initFlip deck) ops).showStats = true) := by
  have hinv := runFlip_inv ops (flipInv_init deck)
  constructor
  · constructor
    · exact hinv.stats
    · intro hall
      rcases hb : (runFlip (initFlip deck) ops).showStats with _ | _
      · exfalso
        rcases hinv.current hb with hnil | ⟨c, hg, hlt⟩
        · exact runFlip_cards_ne_nil hne ops hnil
        · exact absurd (hall c (List.get?_mem hg)) (ne_of_lt hlt)
      · rfl
  · intro hpos hlen
    apply runFlip_terminates ops hpos _ (flipInv_init deck)
    · simp only [initFlip]
      intro hnil
      exact hne (List.map_eq_nil.mp hnil)
    · rw [masteryDeficit_init]
      have h5 : MAX_MASTERY.toNat = 5 := rfl
      rw [h5] at hlen
      exact hlen

/-- Witness for `c3_termination` at the deck `[cardA, cardB]` with ten
correct grades. -/
theorem c3_termination_witness :
    ([cardA, cardB] ≠ ([] : List Flashcard)) ∧
    (((runFlip (initFlip [cardA, cardB]) (List.replicate 10 GradeOp.correct)).showStats
        = true ↔
      ∀ c ∈ (runFlip (initFlip [cardA, cardB])
          (List.replicate 10 GradeOp.correct)).cards,
        c.masteryScore = MAX_MASTERY) ∧
    ((∀ op ∈ List.replicate 10 GradeOp.correct, op ≠ GradeOp.incorrect) →
      [cardA, cardB].length * MAX_MASTERY.toNat ≤
        (List.replicate 10 GradeOp.correct).length →
      (runFlip (initFlip [cardA, cardB])
        (List.replicate 10 GradeOp.correct)).showStats = true)) :=
  ⟨by decide, c3_termination [cardA, cardB] (List.replicate 10 GradeOp.correct) (by decide)⟩

/-- Claim C4: in memory mode, a click is ignored — the state is
returned unchanged, so in particular no third tile flips — whenever
two tiles are already selected (face-up and unresolved), and likewise
for clicks on an already-flipped or already-matched tile. -/
theorem c4_memory_click_ignored (s : MemoryState) (index : Nat) (t : MemoryTile)
    (ht : s.memoryCards.get? index = some t)
    (h : s.selectedIndices.length = 2 ∨ t.isFlipped = true ∨ t.isMatched = true) :
    handleMemoryClick s index = s := by
  rw [handleMemoryClick, ht]
  dsimp only
  rw [if_pos h]

/-- Sample memory tile: the face-down front tile of card `b`. -/
def memTileB : MemoryTile :=
  { id := "b", content := "book", type := TileSide.front, isFlipped := false
    isMatched := false }

/-- Sample memory state: two unresolved tiles are face-up
(`selectedIndices = [0, 1]`), `memTileB` at index 2 is face-down. -/
def memStateEx : MemoryState :=
  { memoryCards :=
      [{ id := "a", content := "apple", type := TileSide.front, isFlipped := true
         isMatched := false },
       { id := "b", content := "hon", type := TileSide.back, isFlipped := true
         isMatched := false },
       memTileB]
    selectedIndices := [0, 1]
    memoryClickCount := 2
    isTimerActive := true
    showStats := false }

/-- Witness for `c4_memory_click_ignored`: two tiles of `memStateEx`
are face-up and unresolved, so a click on the third tile is ignored. -/
theorem c4_memory_click_ignored_witness :
    (memStateEx.memoryCards.get? 2 = some memTileB ∧
      (memStateEx.selectedIndices.length = 2 ∨ memTileB.isFlipped = true ∨
        memTileB.isMatched = true)) ∧
    handleMemoryClick memStateEx 2 = memStateEx :=
  ⟨⟨by decide, by decide⟩,
    c4_memory_click_ignored memStateEx 2 memTileB (by decide) (by decide)⟩

/-! ## Rounding lemmas for the statistics -/

theorem masterySum_nonneg {cards : List Flashcard} (h : MasteryInv cards) :
    0 ≤ masterySum cards := by
  apply List.sum_nonneg
  intro x hx
  rcases List.mem_map.mp hx with ⟨c, hc, hcx⟩
  rw [← hcx]
  exact (h c hc).1

theorem jsRound_div (p q : ℕ) (hq : 0 < q) :
    jsRound ((p : ℚ) / (q : ℚ)) = ((2 * p + q) / (2 * q) : ℕ) := by
  rw [jsRound]
  have hq0 : ((q : ℕ) : ℚ) ≠ 0 := Nat.cast_ne_zero.mpr (by omega)
  have hcast : (p : ℚ) / (q : ℚ) + 1 / 2 = ((2 * p + q : ℕ) : ℚ) / ((2 * q : ℕ) : ℚ) := by
    push_cast
    field_simp
    ring
  rw [hcast, Rat.floor_natCast_div_natCast]
  norm_cast

theorem jsRound_eq_natRound (p q : ℕ) (hq : 0 < q) :
    jsRound ((p : ℚ) / (q : ℚ)) = (natRound p q : ℤ) :=
  jsRound_div p q hq

/-- Claim C6: for flip-card and listening sessions the reported
aggregate progress equals
`round((sum of per-card masteryScore) / (card count × MAX_MASTERY) × 100)`
(written with natural-number arithmetic as `natRound`), and for memory
mode the reported progress is the efficiency score
`min(100, round((2 × pair count) / click count × 100))`, the perfect
click count being `2 × MEMORY_PAIR_COUNT = MEMORY_PERFECT_CLICKS`. -/
theorem c6_progress_formulas :
    (∀ cards : List Flashcard, MasteryInv cards → cards ≠ [] →
      statsProgress cards =
        (natRound (100 * (masterySum cards).toNat)
          (cards.length * MAX_MASTERY.toNat) : ℤ)) ∧
    MEMORY_PERFECT_CLICKS = 2 * MEMORY_PAIR_COUNT ∧
    (∀ clicks : ℕ, 0 < clicks →
      memoryProgress clicks =
        (min 100 (natRound (2 * MEMORY_PAIR_COUNT * 100) clicks) : ℤ)) := by
  refine ⟨?_, rfl, ?_⟩
  · intro cards hinv hne
    have hlen : 0 < cards.length := List.length_pos.mpr hne
    have h0 : 0 ≤ masterySum cards := masterySum_nonneg hinv
    rw [statsProgress]
    have htot : (0 : ℤ) < (cards.length : ℤ) * MAX_MASTERY := by
      rw [MAX_MASTERY]
      omega
    rw [if_pos htot]
    have hq : 0 < cards.length * MAX_MASTERY.toNat := by
      rw [show MAX_MASTERY.toNat = 5 from rfl]
      omega
    have hq0 : ((cards.length * MAX_MASTERY.toNat : ℕ) : ℚ) ≠ 0 :=
      Nat.cast_ne_zero.mpr (by omega)
    have hcast : (masterySum cards : ℚ) / (((cards.length : ℤ) * MAX_MASTERY : ℤ) : ℚ)
        * 100 =
        ((100 * (masterySum cards).toNat : ℕ) : ℚ) /
          ((cards.length * MAX_MASTERY.toNat : ℕ) : ℚ) := by
      have hs : ((masterySum cards).toNat : ℚ) = (masterySum cards : ℚ) := by
        exact_mod_cast Int.toNat_of_nonneg h0
      have h5 : MAX_MASTERY.toNat = 5 := rfl
      rw [MAX_MASTERY] at *
      push_cast [hs, h5]
      field_simp
      ring
    rw [hcast, jsRound_eq_natRound _ _ hq]
  · intro clicks hc
    rw [memoryProgress, if_pos hc]
    have hcast : (MEMORY_PERFECT_CLICKS : ℚ) / (clicks : ℚ) * 100 =
        ((2 * MEMORY_PAIR_COUNT * 100 : ℕ) : ℚ) / ((clicks : ℕ) : ℚ) := by
      have h12 : (MEMORY_PERFECT_CLICKS : ℚ) = 12 := rfl
      have hp : ((2 * MEMORY_PAIR_COUNT * 100 : ℕ) : ℚ) = 1200 := by
        norm_num [MEMORY_PAIR_COUNT]
      rw [h12, hp]
      ring
    rw [hcast, jsRound_eq_natRound _ _ hc]

/-- Witness for `c6_progress_formulas`: a two-card working set with
masteries 3 and 5 reports `round(8 / 10 × 100) = 80`, and 16 memory
clicks report `min(100, round(1200 / 16)) = 75`. -/
theorem c6_progress_formulas_witness :
    (MasteryInv [{ cardA with masteryScore := 3 }, { cardB with masteryScore := 5 }] ∧
      [{ cardA with masteryScore := 3 }, { cardB with masteryScore := 5 }] ≠
        ([] : List Flashcard) ∧ 0 < (16 : ℕ)) ∧
    statsProgress [{ cardA with masteryScore := 3 }, { cardB with masteryScore := 5 }] =
      (natRound (100 * (masterySum [{ cardA with masteryScore := 3 },
          { cardB with masteryScore := 5 }]).toNat)
        ([{ cardA with masteryScore := 3 },
          { cardB with masteryScore := 5 }].length * MAX_MASTERY.toNat) : ℤ) ∧
    memoryProgress 16 = (min 100 (natRound (2 * MEMORY_PAIR_COUNT * 100) 16) : ℤ) :=
  ⟨⟨by unfold MasteryInv; decide, by decide, by decide⟩,
    c6_progress_formulas.1 _ (by unfold MasteryInv; decide) (by decide),
    c6_progress_formulas.2.2 16 (by decide)⟩

/-! ## PCM decoding lemmas -/

theorem toPCMPairs_length : ∀ l : List (Fin 256),
    (toPCMPairs l).length = l.length / 2
  | [] => by simp [toPCMPairs]
  | [x] => by simp [toPCMPairs]
  | _ :: _ :: rest => by
    have ih := toPCMPairs_length rest
    simp only [toPCMPairs, List.length_cons]
    omega

theorem toPCMPairs_get? : ∀ (l : List (Fin 256)) (i : Nat) (lo hi : Fin 256),
    l.get? (2 * i) = some lo → l.get? (2 * i + 1) = some hi →
    (toPCMPairs l).get? i = some (lo, hi)
  | [], _, _, _, h1, _ => by simp at h1
  | [x], i, lo, hi, h1, h2 => by
    rcases i with _ | i
    · simp at h2
    · rw [show 2 * (i + 1) = 2 * i + 1 + 1 from by omega, List.get?_cons_succ] at h1
      simp at h1
  | a :: b :: rest, 0, lo, hi, h1, h2 => by
    rw [Nat.mul_zero] at h1 h2
    rw [List.get?_cons_zero] at h1
    rw [Nat.zero_add, List.get?_cons_succ, List.get?_cons_zero] at h2
    injection h1 with h1
    injection h2 with h2
    subst h1
    subst h2
    simp [toPCMPairs]
  | a :: b :: rest, i + 1, lo, hi, h1, h2 => by
    rw [show 2 * (i + 1) = 2 * i + 1 + 1 from by omega, List.get?_cons_succ,
      List.get?_cons_succ] at h1
    rw [show 2 * (i + 1) + 1 = 2 * i + 1 + 1 + 1 from by omega, List.get?_cons_succ,
      List.get?_cons_succ] at h2
    have ih := toPCMPairs_get? rest i lo hi h1 h2
    simp only [toPCMPairs, List.get?_cons_succ]
    exact ih

theorem int16OfBytes_bounds (lo hi : Fin 256) :
    -32768 ≤ int16OfBytes lo hi ∧ int16OfBytes lo hi ≤ 32767 := by
  rw [int16OfBytes]
  have hlo := lo.isLt
  have hhi := hi.isLt
  split <;> omega

/-- Claim C7 counterexample: the one-byte buffer `[0x00]` (odd length,
`⌊N / 2⌋ = 0` aligned samples) does not decode to an empty sample list
— `ctx.createBuffer` throws for a zero frame count, embedded as
`Except.error` — refuting "a buffer of odd length N … decodes to
⌊N/2⌋ samples without raising an error"; the empty buffer (even
length) raises too.  A buffer with at least one aligned pair decodes
normally. -/
theorem c7_counterexample :
    decodePCM [(0 : Fin 256)] = Except.error () ∧
    decodePCM ([] : List (Fin 256)) = Except.error () ∧
    decodePCM [(0 : Fin 256), 128, 255] =
      Except.ok [(int16OfBytes 0 128 : ℚ) / 32768] :=
  ⟨rfl, rfl, rfl⟩

/-- Claim C7 (amended): PCM decoding raises exactly when the buffer
holds fewer than 2 bytes (zero aligned samples, where `createBuffer`
throws `NotSupportedError`); every other buffer of `N` bytes decodes —
a trailing odd byte dropped without error — to exactly `⌊N / 2⌋`
samples, each equal to the corresponding signed 16-bit little-endian
value divided by 32768 and hence lying in `[-1, 1]`. -/
theorem c7_decode_pcm (data : List (Fin 256)) :
    (decodePCM data = Except.error () ↔ data.length < 2) ∧
    (∀ samples : List ℚ, decodePCM data = Except.ok samples →
      samples.length = data.length / 2 ∧
      (∀ s ∈ samples, -1 ≤ s ∧ s ≤ 1) ∧
      (∀ (i : Nat) (lo hi : Fin 256),
        data.get? (2 * i) = some lo → data.get? (2 * i + 1) = some hi →
        samples.get? i = some ((int16OfBytes lo hi : ℚ) / 32768))) := by
  have hlen := toPCMPairs_length data
  constructor
  · rw [decodePCM]
    by_cases h0 : (toPCMPairs data).length = 0
    · rw [if_pos h0]
      constructor
      · intro _
        omega
      · intro _
        rfl
    · rw [if_neg h0]
      constructor
      · intro hcontra
        exact Except.noConfusion hcontra
      · intro hlt
        exfalso
        omega
  · intro samples hok
    rw [decodePCM] at hok
    by_cases h0 : (toPCMPairs data).length = 0
    · rw [if_pos h0] at hok
      exact Except.noConfusion hok
    · rw [if_neg h0] at hok
      injection hok with hok
      subst hok
      refine ⟨?_, ?_, ?_⟩
      · rw [List.length_map, toPCMPairs_length]
      · intro x hx
        rcases List.mem_map.mp hx with ⟨⟨lo, hi⟩, _, hval⟩
        rw [← hval]
        have hb := int16OfBytes_bounds lo hi
        have hb1 : (-32768 : ℚ) ≤ (int16OfBytes lo hi : ℚ) := by exact_mod_cast hb.1
        have hb2 : (int16OfBytes lo hi : ℚ) ≤ 32767 := by exact_mod_cast hb.2
        constructor
        · rw [le_div_iff (show (0 : ℚ) < 32768 by norm_num)]
          linarith
        · rw [div_le_one (show (0 : ℚ) < 32768 by norm_num)]
          linarith
      · intro i lo hi h1 h2
        rw [List.get?_map, toPCMPairs_get? data i lo hi h1 h2]
        rfl

/-- Witness for `c7_decode_pcm`: the three-byte buffer
`[0x00, 0x80, 0xff]` decodes successfully, its first aligned pair
`0x8000` giving the sample `-32768 / 32768 = -1` and the trailing
byte being dropped. -/
theorem c7_decode_pcm_witness :
    (decodePCM [(0 : Fin 256), 128, 255] =
      Except.ok [(int16OfBytes 0 128 : ℚ) / 32768]) ∧
    ([(int16OfBytes 0 128 : ℚ) / 32768].length = [(0 : Fin 256), 128, 255].length / 2 ∧
      (∀ s ∈ [(int16OfBytes 0 128 : ℚ) / 32768], -1 ≤ s ∧ s ≤ 1) ∧
      (∀ (i : Nat) (lo hi : Fin 256),
        [(0 : Fin 256), 128, 255].get? (2 * i) = some lo →
        [(0 : Fin 256), 128, 255].get? (2 * i + 1) = some hi →
        [(int16OfBytes 0 128 : ℚ) / 32768].get? i =
          some ((int16OfBytes lo hi : ℚ) / 32768))) :=
  ⟨rfl, (c7_decode_pcm [(0 : Fin 256), 128, 255]).2
    [(int16OfBytes 0 128 : ℚ) / 32768] rfl⟩

/-! ## Listening-mode option sets and grading -/

/-- Claim C5 counterexample: the two-card deck `[cardA, cardB]` enters
listening mode with a live session (`showStats = false`, no feedback
lock) — no validation rejects it — and its option set has 2 entries,
not 4. -/
theorem c5_counterexample :
    (startListeningGame [cardA, cardB] id id).showStats = false ∧
    (startListeningGame [cardA, cardB] id id).feedback = none ∧
    (startListeningGame [cardA, cardB] id id).options.length = 2 ∧
    ¬(startListeningGame [cardA, cardB] id id).options.length = 4 := by
  decide

/-- Claim C5 (amended): for both comparator shuffles permuting their
input, a listening turn's option set has `1 + min(3, k)` entries,
where `k` counts the cards whose id differs from the correct card's id
— so exactly 4 whenever the deck supplies at least three other-id
cards; it always contains the correct card's back text, and the
remaining entries are the back texts of a without-replacement sample
(`Subperm`) of the other-id cards.  No validation rejects decks with
fewer than 4 cards: the mode starts regardless and simply offers
fewer options (see the counterexample). -/
theorem c5_listening_options (cards : List Flashcard) (correct : Flashcard)
    (shC : List Flashcard → List Flashcard) (shS : List String → List String)
    (hshC : ∀ l, (shC l).Perm l) (hshS : ∀ l, (shS l).Perm l) :
    (listeningOptionsFor cards correct shC shS).length =
      1 + min 3 (cards.filter (fun c => decide ¬(c.id = correct.id))).length ∧
    correct.back ∈ listeningOptionsFor cards correct shC shS ∧
    ∃ others : List Flashcard,
      List.Subperm others (cards.filter (fun c => decide ¬(c.id = correct.id))) ∧
      others.length = min 3 (cards.filter (fun c => decide ¬(c.id = correct.id))).length ∧
      (listeningOptionsFor cards correct shC shS).Perm
        (correct.back :: others.map (fun o => o.back)) := by
  rw [listeningOptionsFor]
  refine ⟨?_, ?_, ?_⟩
  · rw [(hshS _).length_eq]
    simp only [List.length_cons, List.length_map, List.length_take,
      (hshC _).length_eq]
    omega
  · exact (hshS _).mem_iff.mpr (List.mem_cons_self _ _)
  · refine ⟨(shC (cards.filter (fun c => decide ¬(c.id = correct.id)))).take 3,
      ?_, ?_, ?_⟩
    · exact List.Subperm.trans (List.take_sublist _ _).subperm (hshC _).subperm
    · simp only [List.length_take, (hshC _).length_eq]
    · exact hshS _

/-- Witness for `c5_listening_options`: the four-card deck
`[cardA, cardB, cardC, cardD]` with identity shuffles. -/
theorem c5_listening_options_witness :
    ((∀ l : List Flashcard, (id l).Perm l) ∧ (∀ l : List String, (id l).Perm l)) ∧
    ((listeningOptionsFor [cardA, cardB, cardC, cardD] cardA id id).length =
      1 + min 3 ([cardA, cardB, cardC, cardD].filter
        (fun c => decide ¬(c.id = cardA.id))).length ∧
    cardA.back ∈ listeningOptionsFor [cardA, cardB, cardC, cardD] cardA id id ∧
    ∃ others : List Flashcard,
      List.Subperm others ([cardA, cardB, cardC, cardD].filter
        (fun c => decide ¬(c.id = cardA.id))) ∧
      others.length = min 3 ([cardA, cardB, cardC, cardD].filter
        (fun c => decide ¬(c.id = cardA.id))).length ∧
      (listeningOptionsFor [cardA, cardB, cardC, cardD] cardA id id).Perm
        (cardA.back :: others.map (fun o => o.back))) :=
  ⟨⟨fun l => List.Perm.refl l, fun l => List.Perm.refl l⟩,
    c5_listening_options [cardA, cardB, cardC, cardD] cardA id id
      (fun l => List.Perm.refl l) (fun l => List.Perm.refl l)⟩

/-- Claim C10: a listening answer is graded solely by string equality
with the current card's back text; and because distractor sampling
excludes candidates only by card id, a deck with two cards sharing the
same back text can produce an option set containing the correct back
text twice, and selecting the distractor copy is graded correct. -/
theorem c10_grading_by_string_equality :
    (∀ (s : ListeningState) (answer : String) (current : Flashcard),
      s.feedback = none → s.cards.get? s.currentIndex = some current →
      ((handleListeningAnswer s answer).feedback = some true ↔
        answer = current.back)) ∧
    (startListeningGame [cardA, cardA2, cardC, cardD] id id).options.count "ringo" = 2 ∧
    (handleListeningAnswer (startListeningGame [cardA, cardA2, cardC, cardD] id id)
      "ringo").feedback = some true := by
  refine ⟨?_, by decide, by decide⟩
  intro s answer current hfb hg
  rw [handleListeningAnswer, hfb]
  simp only [Option.isSome_none, Bool.false_eq_true, if_false]
  rw [hg]
  dsimp only
  simp [decide_eq_true_eq]

/-- Witness for `c10_grading_by_string_equality`: the general grading
equivalence applied to the fresh four-card session and the answer
`"hon"`. -/
theorem c10_grading_by_string_equality_witness :
    ((startListeningGame [cardA, cardB, cardC, cardD] id id).feedback = none ∧
      (startListeningGame [cardA, cardB, cardC, cardD] id id).cards.get?
        (startListeningGame [cardA, cardB, cardC, cardD] id id).currentIndex =
        some cardA) ∧
    ((handleListeningAnswer (startListeningGame [cardA, cardB, cardC, cardD] id id)
        "hon").feedback = some true ↔ "hon" = cardA.back) :=
  ⟨⟨by decide, by decide⟩,
    c10_grading_by_string_equality.1 (startListeningGame [cardA, cardB, cardC, cardD] id id)
      "hon" cardA (by decide) (by decide)⟩

/-! ## Audio pipeline claims -/

/-- Claim C8: `playTextToSpeech` never propagates an error to its
caller — it is the total `catch`-wrapper of the primary body — and its
primary path fails exactly for the enumerated failure environments
(cache miss and then: invalid credential, request failure, empty or
missing audio payload, or decode failure); on every such failure the
local fallback voice is invoked exactly once, and on success it is not
invoked at all. -/
theorem c8_tts_absorbs_failures (env : TtsEnv) (text : String) (cache : AudioCache) :
    (ttsFailed env text cache = true ↔
      cacheLookup cache text = none ∧
        (validApiKey env.apiKey = false ∨ env.response = Except.error () ∨
          env.response = Except.ok none ∨
          ∃ b64, env.response = Except.ok (some b64) ∧
            env.decodeResult b64 = Except.error ())) ∧
    (playTextToSpeech env text cache).2.count TtsEvent.fallback =
      (if ttsFailed env text cache = true then 1 else 0) := by
  rcases hl : cacheLookup cache text with _ | buf
  · rcases hk : validApiKey env.apiKey with _ | _
    · constructor
      · simp [ttsFailed, ttsPrimary, hl, hk]
      · simp [ttsFailed, ttsPrimary, playTextToSpeech, hl, hk]
    · rcases hr : env.response with e | ob
      · obtain ⟨⟩ := e
        constructor
        · simp [ttsFailed, ttsPrimary, hl, hk, hr]
        · simp [ttsFailed, ttsPrimary, playTextToSpeech, hl, hk, hr]
      · rcases ob with _ | b64
        · constructor
          · simp [ttsFailed, ttsPrimary, hl, hk, hr]
          · simp [ttsFailed, ttsPrimary, playTextToSpeech, hl, hk, hr]
        · rcases hd : env.decodeResult b64 with de | buf2
          · obtain ⟨⟩ := de
            have hfail : ttsFailed env text cache = true := by
              simp [ttsFailed, ttsPrimary, hl, hk, hr, hd]
            constructor
            · rw [hfail]
              constructor
              · intro _
                exact ⟨rfl, Or.inr (Or.inr (Or.inr ⟨b64, rfl, hd⟩))⟩
              · intro _
                rfl
            · simp [playTextToSpeech, ttsPrimary, hl, hk, hr, hd, hfail]
          · have hok : ttsFailed env text cache = false := by
              simp [ttsFailed, ttsPrimary, hl, hk, hr, hd]
            constructor
            · rw [hok]
              constructor
              · intro hcontra
                exact (Bool.false_ne_true hcontra).elim
              · rintro ⟨-, hcase⟩
                exfalso
                rcases hcase with hv | hre | hrn | ⟨b, hb, hbd⟩
                · exact Bool.noConfusion hv
                · exact Except.noConfusion hre
                · injection hrn with h'
                  exact Option.noConfusion h'
                · injection hb with h'
                  injection h' with h''
                  subst h''
                  rw [hd] at hbd
                  exact Except.noConfusion hbd
            · simp [playTextToSpeech, ttsPrimary, hl, hk, hr, hd, hok]
  · constructor
    · simp [ttsFailed, ttsPrimary, hl]
    · simp [ttsFailed, ttsPrimary, playTextToSpeech, hl]

/-- Claim C9: a first call on a cache miss whose synthesis and decode
succeed stores the decoded buffer in the cache under the exact text
key; a second sequential call for the same text (any environment, no
eviction in between) is served from the cache: across the two calls
exactly one remote request is issued, and the second call plays the
cached buffer without a remote request or a decode. -/
theorem c9_cache_serves_second_call (env1 env2 : TtsEnv) (text : String)
    (cache : AudioCache) (b64 : String) (buffer : AudioBufferQ)
    (hmiss : cacheLookup cache text = none)
    (hkey : validApiKey env1.apiKey = true)
    (hresp : env1.response = Except.ok (some b64))
    (hdec : env1.decodeResult b64 = Except.ok buffer) :
    ((playTextToSpeech env1 text cache).2 ++
        (playTextToSpeech env2 text (playTextToSpeech env1 text cache).1).2).count
      TtsEvent.remoteRequest = 1 ∧
    cacheLookup (playTextToSpeech env1 text cache).1 text = some buffer ∧
    (playTextToSpeech env2 text (playTextToSpeech env1 text cache).1).2 =
      [TtsEvent.playedCached] ∧
    (playTextToSpeech env2 text (playTextToSpeech env1 text cache).1).1 =
      (playTextToSpeech env1 text cache).1 := by
  have h1 : playTextToSpeech env1 text cache =
      (cacheInsert cache text buffer,
        [TtsEvent.remoteRequest, TtsEvent.decoded, TtsEvent.playedFresh]) := by
    rw [playTextToSpeech, ttsPrimary, hmiss]
    dsimp only
    rw [if_neg (by simp [hkey]), hresp]
    dsimp only
    rw [hdec]
  have hhit : cacheLookup (cacheInsert cache text buffer) text = some buffer := by
    rw [cacheLookup, cacheInsert]
    simp [List.find?]
  have h2 : playTextToSpeech env2 text (cacheInsert cache text buffer) =
      (cacheInsert cache text buffer, [TtsEvent.playedCached]) := by
    rw [playTextToSpeech, ttsPrimary, hhit]
  rw [h1, h2]
  exact ⟨rfl, hhit, rfl, rfl⟩

/-- Witness for `c9_cache_serves_second_call` at a concrete
environment whose request and decode succeed. -/
theorem c9_cache_serves_second_call_witness :
    (cacheLookup [] "hello" = none ∧
      validApiKey (TtsEnv.mk (some "key") (Except.ok (some "payload"))
          (fun _ => Except.ok [(1 : ℚ)])).apiKey = true ∧
      (TtsEnv.mk (some "key") (Except.ok (some "payload"))
          (fun _ => Except.ok [(1 : ℚ)])).response = Except.ok (some "payload") ∧
      (TtsEnv.mk (some "key") (Except.ok (some "payload"))
          (fun _ => Except.ok [(1 : ℚ)])).decodeResult "payload" =
        Except.ok [(1 : ℚ)]) ∧
    (((playTextToSpeech (TtsEnv.mk (some "key") (Except.ok (some "payload"))
          (fun _ => Except.ok [(1 : ℚ)])) "hello" []).2 ++
        (playTextToSpeech (TtsEnv.mk (some "key") (Except.ok (some "payload"))
            (fun _ => Except.ok [(1 : ℚ)])) "hello"
          (playTextToSpeech (TtsEnv.mk (some "key") (Except.ok (some "payload"))
            (fun _ => Except.ok [(1 : ℚ)])) "hello" []).1).2).count
      TtsEvent.remoteRequest = 1 ∧
    cacheLookup (playTextToSpeech (TtsEnv.mk (some "key") (Except.ok (some "payload"))
        (fun _ => Except.ok [(1 : ℚ)])) "hello" []).1 "hello" = some [(1 : ℚ)] ∧
    (playTextToSpeech (TtsEnv.mk (some "key") (Except.ok (some "payload"))
        (fun _ => Except.ok [(1 : ℚ)])) "hello"
      (playTextToSpeech (TtsEnv.mk (some "key") (Except.ok (some "payload"))
        (fun _ => Except.ok [(1 : ℚ)])) "hello" []).1).2 =
      [TtsEvent.playedCached] ∧
    (playTextToSpeech (TtsEnv.mk (some "key") (Except.ok (some "payload"))
        (fun _ => Except.ok [(1 : ℚ)])) "hello"
      (playTextToSpeech (TtsEnv.mk (some "key") (Except.ok (some "payload"))
        (fun _ => Except.ok [(1 : ℚ)])) "hello" []).1).1 =
      (playTextToSpeech (TtsEnv.mk (some "key") (Except.ok (some "payload"))
        (fun _ => Except.ok [(1 : ℚ)])) "hello" []).1) :=
  ⟨⟨rfl, by decide, rfl, rfl⟩,
    c9_cache_serves_second_call
      (TtsEnv.mk (some "key") (Except.ok (some "payload")) (fun _ => Except.ok [(1 : ℚ)]))
      (TtsEnv.mk (some "key") (Except.ok (some "payload")) (fun _ => Except.ok [(1 : ℚ)]))
      "hello" [] "payload" [(1 : ℚ)] rfl (by decide) rfl rfl⟩

end JecTango
